import Mathlib

/-!
Shallow embedding of `configparserwrapper.py` (class `ConfigParserWrapper`).

Python strings are modelled as `List Char` (`PyStr`); the parsed
configuration store (the external `SafeConfigParser` collaborator) is an
ordered association list of sections, each an ordered association list of
options.  Logging is modelled by returning the list of emitted log events
alongside the result.  Python `None` results become `Option.none`; the one
place where the code can raise at query time (`KeyError` on
`os.environ["PATH"]` inside `_get_full_path`) is modelled with `Except`.
Leading underscores of the Python method names are dropped
(`_string_to_digit` becomes `string_to_digit`, and so on).
-/

namespace CPW

/-- A Python string, modelled as its list of characters. -/
abbrev PyStr := List Char

/-- The single-quote character `'`, used by the log-message format strings. -/
def sq : Char := Char.ofNat 39

/-- The double-quote character, stripped from PATH entries. -/
def dq : Char := Char.ofNat 34

/-- Log severities used by the wrapper (`self._logger.error` / `.warning`). -/
inductive LogLevel
  | error
  | warning
deriving DecidableEq

/-- One emitted log record: severity and message text. -/
abbrev LogEvent := LogLevel × PyStr

/-- Result of `_string_to_digit`: a Python `int` or a Python `float`
(the float value is modelled as an exact rational; IEEE rounding is
elided, which does not affect which strings parse). -/
inductive PyNumber
  | int (n : Int)
  | float (q : Rat)
deriving DecidableEq

/-- A value returned by `get_value` (`str | int | float | bool`). -/
inductive PyValue
  | str (s : PyStr)
  | num (x : PyNumber)
  | bool (b : Bool)
deriving DecidableEq

instance {ε α : Type} [DecidableEq ε] [DecidableEq α] : DecidableEq (Except ε α) :=
  fun x y =>
    match x, y with
    | Except.ok a, Except.ok b =>
      if h : a = b then isTrue (by rw [h]) else isFalse (by simp [h])
    | Except.error a, Except.error b =>
      if h : a = b then isTrue (by rw [h]) else isFalse (by simp [h])
    | Except.ok _, Except.error _ => isFalse (by simp)
    | Except.error _, Except.ok _ => isFalse (by simp)

/-! ### Python string/number primitives used by the code -/

/-- Python whitespace accepted and stripped by `int()` / `float()`. -/
def isPySpace (c : Char) : Bool :=
  c == ' ' || c == '\t' || c == '\n' || c == '\r' || c == '\x0b' || c == '\x0c'

/-- `s.strip(p)`: drop characters satisfying `p` from both ends. -/
def pyStrip (p : Char → Bool) (l : PyStr) : PyStr :=
  ((l.dropWhile p).reverse.dropWhile p).reverse

/-- `s.rstrip(p)`: drop characters satisfying `p` from the right end. -/
def pyRstrip (p : Char → Bool) (l : PyStr) : PyStr :=
  (l.reverse.dropWhile p).reverse

/-- Value of a list of decimal digit characters. -/
def digitsToNat (l : List Char) : Nat :=
  l.foldl (fun a c => a * 10 + (c.toNat - 48)) 0

/-- Python's `int(str)` builtin on a decimal literal: optional surrounding
whitespace, optional sign, then one or more ASCII digits; anything else
raises `ValueError`, modelled as `none`. -/
def pyInt (v : PyStr) : Option Int :=
  let core := pyStrip isPySpace v
  let sd : Int × PyStr :=
    match core with
    | '+' :: r => (1, r)
    | '-' :: r => (-1, r)
    | r => (1, r)
  if sd.2 ≠ [] ∧ sd.2.all Char.isDigit then some (sd.1 * digitsToNat sd.2) else none

/-- Exponent suffix of a Python float literal: either nothing, or
`e`/`E`, an optional sign and one or more digits. -/
def parseExponent (rest : PyStr) : Option Int :=
  match rest with
  | [] => some 0
  | c :: r =>
    if c = 'e' ∨ c = 'E' then
      let sd : Int × PyStr :=
        match r with
        | '+' :: rr => (1, rr)
        | '-' :: rr => (-1, rr)
        | rr => (1, rr)
      if sd.2 ≠ [] ∧ sd.2.all Char.isDigit then some (sd.1 * digitsToNat sd.2) else none
    else none

/-- Python's `float(str)` builtin on a decimal literal: optional
whitespace and sign, a mantissa with at least one digit and an optional
decimal point, and an optional exponent.  The special names
`inf`/`infinity`/`nan` are elided: they contain no `.` character, so they
are unreachable from `_string_to_digit`, which only calls `float()` on
strings containing a dot.  Failure (`ValueError`) is `none`. -/
def pyFloat (v : PyStr) : Option Rat :=
  let core := pyStrip isPySpace v
  let sd : Rat × PyStr :=
    match core with
    | '+' :: r => (1, r)
    | '-' :: r => (-1, r)
    | r => (1, r)
  let d1 := sd.2.takeWhile Char.isDigit
  let r1 := sd.2.dropWhile Char.isDigit
  match r1 with
  | '.' :: rr =>
    let d2 := rr.takeWhile Char.isDigit
    let r2 := rr.dropWhile Char.isDigit
    if d1 = [] ∧ d2 = [] then none
    else
      match parseExponent r2 with
      | none => none
      | some e =>
        some (sd.1 * ((digitsToNat (d1 ++ d2) : Rat) / 10 ^ d2.length) * 10 ^ e)
  | r2 =>
    if d1 = [] then none
    else
      match parseExponent r2 with
      | none => none
      | some e => some (sd.1 * (digitsToNat d1 : Rat) * 10 ^ e)

/-- `str.lower()` (the fixed boolean tokens are ASCII, where
`Char.toLower` agrees with Python). -/
def pyLower (v : PyStr) : PyStr := v.map Char.toLower

/-! ### Log message formats (the `.format` strings of the source) -/

/-- `'{}'`: the argument wrapped in single quotes. -/
def quoted (s : PyStr) : PyStr := sq :: s ++ [sq]

/-- `"Invalid digit value '{}'"`. -/
def invalidDigitMsg (v : PyStr) : PyStr := "Invalid digit value ".data ++ quoted v

/-- `"Invalid bool value '{}'"`. -/
def invalidBoolMsg (v : PyStr) : PyStr := "Invalid bool value ".data ++ quoted v

/-- `"Missing section '{}'"`. -/
def missingSectionMsg (s : PyStr) : PyStr := "Missing section ".data ++ quoted s

/-- `"Missing option '{}' in section '{}'"`. -/
def missingOptionMsg (o s : PyStr) : PyStr :=
  "Missing option ".data ++ quoted o ++ " in section ".data ++ quoted s

/-- `"Empty value in '{}': '{}'"`. -/
def emptyValueMsg (s o : PyStr) : PyStr :=
  "Empty value in ".data ++ quoted s ++ ": ".data ++ quoted o

/-- The textual form of Python `None`, as `"{}".format(None)` renders it. -/
def noneStr : PyStr := "None".data

/-! ### The coercion sub-routines -/

/-- `ConfigParserWrapper._boolean_states` (class-level dict). -/
def boolean_states : List (PyStr × Bool) :=
  [("yes".data, true), ("true".data, true), ("on".data, true),
   ("no".data, false), ("false".data, false), ("off".data, false),
   ("y".data, true), ("t".data, true), ("n".data, false), ("f".data, false)]

/-- Dict lookup `_boolean_states[k]` (keys are distinct, so the first
association-list match is the dict entry). -/
def lookupState (k : PyStr) : Option Bool :=
  (boolean_states.find? (fun p => decide (p.1 = k))).map Prod.snd

/-- `_string_to_digit(value)`: `float(value)` when the string contains a
dot, else `int(value)`; `ValueError` is caught, logged as an error and
turned into `None`.  Returns the result together with the emitted log
events.  Total: the Python method never raises. -/
def string_to_digit (value : PyStr) : Option PyNumber × List LogEvent :=
  if value.contains '.' then
    match pyFloat value with
    | some q => (some (PyNumber.float q), [])
    | none => (none, [(LogLevel.error, invalidDigitMsg value)])
  else
    match pyInt value with
    | some n => (some (PyNumber.int n), [])
    | none => (none, [(LogLevel.error, invalidDigitMsg value)])

/-- `_is_true(value)`: membership test of `value.lower()` in
`_boolean_states`, logging an error and returning `None` on a miss. -/
def is_true (value : PyStr) : Option Bool × List LogEvent :=
  match lookupState (pyLower value) with
  | none => (none, [(LogLevel.error, invalidBoolMsg value)])
  | some b => (some b, [])

/-! ### Filesystem / environment model for `_get_full_path`

The Python code consults `os.path.isfile`, `os.environ["PATH"]`, the
user's home directory (`os.path.expanduser`) and the current working
directory (`os.path.abspath`).  These become an explicit environment
record.  `home` is the resolved home of the invoking user (merging the
`HOME` variable and the `pwd`-database fallback, which the code never
distinguishes); `pwnam` is the `pwd.getpwnam` lookup used for `~user`. -/

structure Env where
  isfile : PyStr → Bool
  pathVar : Option PyStr
  home : PyStr
  pwnam : PyStr → Option PyStr
  cwd : PyStr

/-- Python's `str.split(sep)` with an explicit separator: `""` splits to
`[""]`, separators delimit possibly empty fields. -/
def splitSep (sep : Char) : PyStr → List PyStr
  | [] => [[]]
  | c :: rest =>
    match splitSep sep rest with
    | [] => [[c]]
    | h :: t => if c = sep then [] :: h :: t else (c :: h) :: t

/-- `posixpath.split(p)`: split after the last slash, then strip
trailing slashes from the head unless the head is all slashes. -/
def pySplit (p : PyStr) : PyStr × PyStr :=
  let tail := (p.reverse.takeWhile (fun c => c != '/')).reverse
  let head := p.take (p.length - tail.length)
  let head2 :=
    if head ≠ [] ∧ head.any (fun c => c != '/') then pyRstrip (fun c => c == '/') head
    else head
  (head2, tail)

/-- `posixpath.join(a, b)` (the two-argument form used by the code). -/
def pyJoin (a b : PyStr) : PyStr :=
  if b.take 1 = ['/'] then b
  else if a = [] ∨ a.getLast? = some '/' then a ++ b
  else a ++ '/' :: b

/-- `posixpath.isabs(p)`. -/
def isabs (p : PyStr) : Bool := p.take 1 = ['/']

/-- `posixpath.expanduser(p)`: expand a leading `~` or `~user` using the
environment's home-directory data; unknown users leave the path
unchanged. -/
def expanduser (env : Env) (path : PyStr) : PyStr :=
  if path.take 1 ≠ ['~'] then path
  else
    let name := (path.drop 1).takeWhile (fun c => c != '/')
    let tail := (path.drop 1).dropWhile (fun c => c != '/')
    let userhome : Option PyStr :=
      if name = [] then some env.home else env.pwnam name
    match userhome with
    | none => path
    | some uh =>
      let res := pyRstrip (fun c => c == '/') uh ++ tail
      if res = [] then ['/'] else res

/-- One step of `posixpath.normpath`'s component loop, with the
accumulator kept reversed (Python appends/pops at the right end). -/
def normStep (initialSlashes : Nat) (acc : List PyStr) (comp : PyStr) : List PyStr :=
  if comp = [] ∨ comp = ['.'] then acc
  else if comp ≠ ['.', '.'] ∨ (initialSlashes = 0 ∧ acc = []) ∨ acc.head? = some ['.', '.']
    then comp :: acc
  else acc.tail

/-- The component normalisation loop of `posixpath.normpath`. -/
def processComps (initialSlashes : Nat) (comps : List PyStr) : List PyStr :=
  (comps.foldl (normStep initialSlashes) []).reverse

/-- `posixpath.normpath(p)`: collapse `.` / `..` / repeated slashes,
preserving one or two leading slashes. -/
def normpath (p : PyStr) : PyStr :=
  if p = [] then ['.']
  else
    let initialSlashes : Nat :=
      if p.take 1 = ['/'] then
        if p.take 2 = ['/', '/'] ∧ p.take 3 ≠ ['/', '/', '/'] then 2 else 1
      else 0
    let res := List.replicate initialSlashes '/' ++
      List.intercalate ['/'] (processComps initialSlashes (splitSep '/' p))
    if res = [] then ['.'] else res

/-- `posixpath.abspath(p)`: join onto the current working directory when
relative, then normalise. -/
def abspath (env : Env) (p : PyStr) : PyStr :=
  if isabs p then normpath p else normpath (pyJoin env.cwd p)

/-- `_get_full_path(value)`.  When `value` has no directory part and does
not name an existing file, the code reads `os.environ["PATH"]` directly:
if the variable is unset this raises `KeyError`, modelled as
`Except.error ()`.  Otherwise each PATH entry is stripped of double
quotes and the first entry containing `filename` as a file wins.  The
surviving value is then user-expanded, normalised and made absolute. -/
def get_full_path (env : Env) (value : PyStr) : Except Unit PyStr :=
  let pr := pySplit value
  let searched : Except Unit PyStr :=
    if pr.1 = [] ∧ ¬ env.isfile value then
      match env.pathVar with
      | none => Except.error ()
      | some pv =>
        let dirs := (splitSep ':' pv).map (pyStrip (fun c => c == dq))
        match dirs.find? (fun d => env.isfile (pyJoin d pr.2)) with
        | some d => Except.ok (pyJoin d pr.2)
        | none => Except.ok value
    else Except.ok value
  match searched with
  | Except.error e => Except.error e
  | Except.ok v1 => Except.ok (abspath env (normpath (expanduser env v1)))

/-! ### The configuration store -/

/-- The parsed store exposed by the external parser collaborator: the
sections in stored order, each an ordered list of `(option, raw value)`
pairs.  Section names are unique in any store the parser produces. -/
structure Config where
  sections : List (PyStr × List (PyStr × PyStr))

/-- `self._config.sections()`: the section names in stored order. -/
def sectionNames (cfg : Config) : List PyStr := cfg.sections.map Prod.fst

/-- Look up a section's option list by name. -/
def findSection (cfg : Config) (s : PyStr) : Option (List (PyStr × PyStr)) :=
  (cfg.sections.find? (fun p => decide (p.1 = s))).map Prod.snd

/-- `self._config.has_section(s)`. -/
def has_section (cfg : Config) (s : PyStr) : Bool := (findSection cfg s).isSome

/-- `self._config.has_option(s, o)` (for the section names the wrapper
actually passes: names drawn from `sections()` or already checked with
`has_section`). -/
def has_option (cfg : Config) (s o : PyStr) : Bool :=
  match findSection cfg s with
  | none => false
  | some opts => (opts.find? (fun p => decide (p.1 = o))).isSome

/-- `self._config.get(s, o)`: the raw stored string. -/
def getRaw (cfg : Config) (s o : PyStr) : Option PyStr :=
  (findSection cfg s).bind (fun opts => (opts.find? (fun p => decide (p.1 = o))).map Prod.snd)

/-! ### The wrapper's own methods -/

/-- The accumulation loop of `validate_sections`. -/
def validateLoop (cfg : Config) : List PyStr → List PyStr
  | [] => []
  | s :: rest =>
    if has_section cfg s then validateLoop cfg rest else s :: validateLoop cfg rest

/-- `validate_sections(list_sections)`: `None` when every name exists,
otherwise the invalid names in input order. -/
def validate_sections (cfg : Config) (names : List PyStr) : Option (List PyStr) :=
  let invalid := validateLoop cfg names
  if invalid.length > 0 then some invalid else none

/-- `_get_section_of_option(option)`: first section (in stored order)
containing the option, else `None`. -/
def get_section_of_option (cfg : Config) (option : PyStr) : Option PyStr :=
  (sectionNames cfg).find? (fun s => has_option cfg s option)

/-- The scan loop of `search_sections_of`.  The Python body executes
`return result.add(section)` on the first section containing the option:
`set.add` returns `None`, so the method returns Python `None` (modelled
`none`) the moment a match is found; only when no section matches does it
return `result`, which at that point is still the empty set (modelled
`some []`). -/
def searchLoop (cfg : Config) (option : PyStr) : List PyStr → Option (List PyStr)
  | [] => some []
  | s :: rest =>
    if has_option cfg s option then none else searchLoop cfg option rest

/-- `search_sections_of(option)`, faithful to the source including its
`return result.add(section)` slip. -/
def search_sections_of (cfg : Config) (option : PyStr) : Option (List PyStr) :=
  searchLoop cfg option (sectionNames cfg)

/-- `get_value(option, section, is_digit, is_boolean, is_path, silent)`.
The result is the returned value (`Except.error ()` for the `KeyError`
that `_get_full_path` can raise) paired with the emitted log events.
`self._config.get` is called only after `has_option` succeeded, so the
`getD []` default is never taken. -/
def get_value (cfg : Config) (env : Env) (option : PyStr) (sectionArg : Option PyStr)
    (is_digit is_boolean is_path silent : Bool) :
    Except Unit (Option PyValue) × List LogEvent :=
  let sectionR : Option PyStr :=
    match sectionArg with
    | some s => some s
    | none => get_section_of_option cfg option
  match sectionR with
  | none =>
    (Except.ok none, if silent then [] else [(LogLevel.error, missingSectionMsg noneStr)])
  | some s =>
    if ¬ has_section cfg s then
      (Except.ok none, if silent then [] else [(LogLevel.error, missingSectionMsg s)])
    else if ¬ has_option cfg s option then
      (Except.ok none, if silent then [] else [(LogLevel.error, missingOptionMsg option s)])
    else
      let value := (getRaw cfg s option).getD []
      if value = [] then
        (Except.ok none, if silent then [] else [(LogLevel.warning, emptyValueMsg s option)])
      else if is_digit then
        let r := string_to_digit value
        (Except.ok (r.1.map PyValue.num), r.2)
      else if is_boolean then
        let r := is_true value
        (Except.ok (r.1.map PyValue.bool), r.2)
      else if is_path then
        match get_full_path env value with
        | Except.ok p => (Except.ok (some (PyValue.str p)), [])
        | Except.error e => (Except.error e, [])
      else
        (Except.ok (some (PyValue.str value)), [])

/-! ### Concrete fixtures used by counterexamples and witnesses -/

/-- A small store: `[db]` has `host=localhost` and an empty `e=`;
`[other]` also has a `host`. -/
def cfgEx : Config :=
  ⟨[("db".data, [("host".data, "localhost".data), ("e".data, [])]),
    ("other".data, [("host".data, "h2".data)])]⟩

/-- An environment in which the `PATH` variable is unset and no file
exists. -/
def envNoPath : Env :=
  ⟨fun _ => false, none, "/home/u".data, fun _ => none, "/cwd".data⟩

/-- The same environment with the `PATH` variable present but empty. -/
def envEmptyPath : Env :=
  ⟨fun _ => false, some [], "/home/u".data, fun _ => none, "/cwd".data⟩

/-! ### Helper lemmas -/

theorem findPair_eq_some_iff {α β : Type} [DecidableEq α] [DecidableEq β]
    (l : List (α × β)) (hnd : (l.map Prod.fst).Nodup) (k : α) (b : β) :
    (l.find? (fun p => decide (p.1 = k))).map Prod.snd = some b ↔ (k, b) ∈ l := by
  induction l with
  | nil => simp
  | cons hd tl ih =>
    simp only [List.map_cons, List.nodup_cons, List.mem_map] at hnd
    by_cases h : hd.1 = k
    · subst h
      rw [List.find?_cons_of_pos _ (by simp)]
      simp only [List.mem_cons]
      constructor
      · intro hb
        have hb2 : hd.2 = b := by simpa using hb
        exact Or.inl (by rw [← hb2])
      · rintro (hb | hb)
        · rw [← hb]
          rfl
        · exact absurd ⟨(hd.1, b), hb, rfl⟩ hnd.1
    · rw [List.find?_cons_of_neg _ (by simp [h])]
      rw [ih hnd.2]
      simp only [List.mem_cons]
      constructor
      · exact Or.inr
      · rintro (hb | hb)
        · exact absurd (congrArg Prod.fst hb).symm h
        · exact hb

theorem findPair_eq_none_iff {α β : Type} [DecidableEq α]
    (l : List (α × β)) (k : α) :
    l.find? (fun p => decide (p.1 = k)) = none ↔ k ∉ l.map Prod.fst := by
  rw [List.find?_eq_none]
  constructor
  · intro h hk
    obtain ⟨x, hx, hfst⟩ := List.mem_map.1 hk
    have hx2 := h x hx
    simp only [decide_eq_true_eq] at hx2
    exact hx2 hfst
  · intro h x hx
    simp only [decide_eq_true_eq]
    intro hfst
    exact h (List.mem_map.2 ⟨x, hx, hfst⟩)

theorem lookupState_eq_some_iff (k : PyStr) (b : Bool) :
    lookupState k = some b ↔ (k, b) ∈ boolean_states :=
  findPair_eq_some_iff boolean_states (by decide) k b

theorem lookupState_eq_none_iff (k : PyStr) :
    lookupState k = none ↔ k ∉ boolean_states.map Prod.fst := by
  unfold lookupState
  rw [Option.map_eq_none']
  exact findPair_eq_none_iff boolean_states k

theorem is_true_fst (v : PyStr) : (is_true v).1 = lookupState (pyLower v) := by
  unfold is_true
  cases lookupState (pyLower v) <;> rfl

theorem string_to_digit_fst (v : PyStr) :
    (string_to_digit v).1 =
      if v.contains '.' then (pyFloat v).map PyNumber.float
      else (pyInt v).map PyNumber.int := by
  unfold string_to_digit
  split
  · cases pyFloat v <;> rfl
  · cases pyInt v <;> rfl

theorem validateLoop_eq_filter (cfg : Config) (names : List PyStr) :
    validateLoop cfg names = names.filter (fun s => !has_section cfg s) := by
  induction names with
  | nil => rfl
  | cons hd tl ih =>
    unfold validateLoop
    by_cases h : has_section cfg hd
    · simp [h, ih]
    · simp [h, ih]

theorem validate_sections_eq (cfg : Config) (names : List PyStr) :
    validate_sections cfg names =
      if (names.filter (fun s => !has_section cfg s)).length > 0
      then some (names.filter (fun s => !has_section cfg s)) else none := by
  simp only [validate_sections, validateLoop_eq_filter]

/-! ### Claim theorems -/

/-- C4: `_is_true` performs a case-insensitive lookup against exactly the
fixed token set `{yes, true, on, y, t ↦ true; no, false, off, n, f ↦ false}`:
a token in the set returns the matching boolean, any other content
returns the absence marker and logs an error citing the value. -/
theorem is_true_exact_token_set (v : PyStr) :
    ((is_true v).1 = some true ↔
      pyLower v ∈ ["yes".data, "true".data, "on".data, "y".data, "t".data]) ∧
    ((is_true v).1 = some false ↔
      pyLower v ∈ ["no".data, "false".data, "off".data, "n".data, "f".data]) ∧
    ((is_true v).1 = none ↔ pyLower v ∉ boolean_states.map Prod.fst) ∧
    ((is_true v).1 = none → (is_true v).2 = [(LogLevel.error, invalidBoolMsg v)]) ∧
    (∀ b, (is_true v).1 = some b → (is_true v).2 = []) := by
  refine ⟨?_, ?_, ?_, ?_, ?_⟩
  · rw [is_true_fst, lookupState_eq_some_iff]
    simp only [boolean_states, List.mem_cons, List.not_mem_nil, or_false,
      Prod.mk.injEq, and_true, and_false, false_or, or_false]
    tauto
  · rw [is_true_fst, lookupState_eq_some_iff]
    simp only [boolean_states, List.mem_cons, List.not_mem_nil, or_false,
      Prod.mk.injEq, and_true, and_false, false_or, or_false]
    tauto
  · rw [is_true_fst, lookupState_eq_none_iff]
  · intro h
    rw [is_true_fst] at h
    simp [is_true, h]
  · intro b h
    rw [is_true_fst] at h
    simp [is_true, h]

/-- Witness for C4 at the concrete inputs `"YeS"` and `"maybe"`. -/
theorem is_true_exact_token_set_witness :
    (is_true "YeS".data).1 = some true ∧ (is_true "YeS".data).2 = [] ∧
    (is_true "maybe".data).2 =
      [(LogLevel.error, invalidBoolMsg "maybe".data)] := by
  have h1 := is_true_exact_token_set "YeS".data
  have h2 := is_true_exact_token_set "maybe".data
  have e1 : (is_true "YeS".data).1 = some true := h1.1.mpr (by decide)
  exact ⟨e1, h1.2.2.2.2 true e1, h2.2.2.2.1 (h2.2.2.1.mpr (by decide))⟩

/-- C3: `_string_to_digit` parses through `float` when the raw string
contains a decimal point and through `int` otherwise; a parse failure
yields the absence marker plus one error log citing the value, a success
logs nothing.  The Lean model is a total function: the method never
raises (the `ValueError` of both parses is caught). -/
theorem string_to_digit_spec (v : PyStr) :
    (v.contains '.' = true →
      (string_to_digit v).1 = (pyFloat v).map PyNumber.float) ∧
    (v.contains '.' = false →
      (string_to_digit v).1 = (pyInt v).map PyNumber.int) ∧
    ((string_to_digit v).1 = none →
      (string_to_digit v).2 = [(LogLevel.error, invalidDigitMsg v)]) ∧
    (∀ x, (string_to_digit v).1 = some x → (string_to_digit v).2 = []) := by
  by_cases hc : '.' ∈ v
  · have hcb : v.contains '.' = true := by simpa using hc
    refine ⟨fun _ => by rw [string_to_digit_fst, if_pos hcb],
      fun hfalse => (Bool.noConfusion (hcb.symm.trans hfalse) : _), ?_, ?_⟩
    · intro h
      cases hp : pyFloat v with
      | none => simp [string_to_digit, hc, hp]
      | some q =>
        rw [string_to_digit_fst, if_pos hcb, hp] at h
        simp at h
    · intro x h
      cases hp : pyFloat v with
      | none =>
        rw [string_to_digit_fst, if_pos hcb, hp] at h
        simp at h
      | some q => simp [string_to_digit, hc, hp]
  · have hcb : v.contains '.' = false := by simpa using hc
    refine ⟨fun htrue => (Bool.noConfusion (hcb.symm.trans htrue) : _),
      fun _ => by rw [string_to_digit_fst, if_neg (by rw [hcb]; simp)], ?_, ?_⟩
    · intro h
      cases hp : pyInt v with
      | none => simp [string_to_digit, hc, hp]
      | some n =>
        rw [string_to_digit_fst, if_neg (by rw [hcb]; simp), hp] at h
        simp at h
    · intro x h
      cases hp : pyInt v with
      | none =>
        rw [string_to_digit_fst, if_neg (by rw [hcb]; simp), hp] at h
        simp at h
      | some n => simp [string_to_digit, hc, hp]

/-- Witness for C3 at `"3.5"` (float branch), `"12"` (int branch) and
`"abc"` (non-numeric content). -/
theorem string_to_digit_spec_witness :
    ("3.5".data.contains '.' = true) ∧
    (string_to_digit "3.5".data).1 = (pyFloat "3.5".data).map PyNumber.float ∧
    ("12".data.contains '.' = false) ∧
    (string_to_digit "12".data).1 = (pyInt "12".data).map PyNumber.int ∧
    (string_to_digit "abc".data).2 =
      [(LogLevel.error, invalidDigitMsg "abc".data)] := by
  refine ⟨by decide, (string_to_digit_spec "3.5".data).1 (by decide), by decide,
    (string_to_digit_spec "12".data).2.1 (by decide),
    (string_to_digit_spec "abc".data).2.2.1 (by decide)⟩

/-- C8: `validate_sections` returns the distinguished "all valid" signal
(`None`) exactly when every requested name exists, and otherwise exactly
the sub-sequence of names that do not exist, in input order (it equals
the order-preserving filter of the input and is a sublist of it).  The
model is a pure total function of the store and the input: no mutation,
no failure, and the membership test is exact equality of names. -/
theorem validate_sections_spec (cfg : Config) (names : List PyStr) :
    (validate_sections cfg names = none ↔
      ∀ s ∈ names, has_section cfg s = true) ∧
    (∀ l, validate_sections cfg names = some l →
      l = names.filter (fun s => !has_section cfg s) ∧ l ≠ [] ∧
        l.Sublist names) := by
  rw [validate_sections_eq]
  constructor
  · constructor
    · intro h
      split at h
      · exact absurd h (by simp)
      · rename_i hlen
        intro s hs
        have hnil : names.filter (fun s => !has_section cfg s) = [] := by
          have := Nat.eq_zero_of_not_pos hlen
          exact List.length_eq_zero.mp this
        have := List.filter_eq_nil_iff.mp hnil s hs
        simpa using this
    · intro h
      have hnil : names.filter (fun s => !has_section cfg s) = [] := by
        apply List.filter_eq_nil_iff.mpr
        intro s hs
        simp [h s hs]
      simp [hnil]
  · intro l hl
    split at hl
    · rename_i hlen
      cases hl
      refine ⟨rfl, ?_, List.filter_sublist names⟩
      intro hnil
      rw [hnil] at hlen
      simp at hlen
    · exact absurd hl (by simp)

/-- Witness for C8 at a concrete store and request list. -/
theorem validate_sections_spec_witness :
    validate_sections cfgEx ["db".data] = none ∧
    ["nope".data] =
      (["db".data, "nope".data].filter (fun s => !has_section cfgEx s)) ∧
    ["nope".data] ≠ [] ∧
    List.Sublist ["nope".data] ["db".data, "nope".data] := by
  refine ⟨(validate_sections_spec cfgEx ["db".data]).1.mpr (by decide),
    (validate_sections_spec cfgEx ["db".data, "nope".data]).2
      ["nope".data] (by decide)⟩

theorem get_value_none_arg (cfg : Config) (env : Env) (option : PyStr)
    (dig boo pat sil : Bool) :
    get_value cfg env option none dig boo pat sil =
      get_value cfg env option (get_section_of_option cfg option)
        dig boo pat sil := by
  cases h : get_section_of_option cfg option <;> simp [get_value, h]

/-- C7: an existing option whose raw value is the empty string makes
`get_value` return the absence marker regardless of the requested
coercion, and when not silent it logs one warning (not an error) about
the empty value. -/
theorem get_value_empty_value (cfg : Config) (env : Env) (option s : PyStr)
    (dig boo pat sil : Bool)
    (hs : has_section cfg s = true) (ho : has_option cfg s option = true)
    (hv : getRaw cfg s option = some []) :
    get_value cfg env option (some s) dig boo pat sil =
      (Except.ok none,
        if sil then [] else [(LogLevel.warning, emptyValueMsg s option)]) := by
  simp [get_value, hs, ho, hv]

/-- Witness for C7: the empty `e=` value of section `db` in `cfgEx`,
under every coercion flag and both silent modes. -/
theorem get_value_empty_value_witness :
    get_value cfgEx envNoPath "e".data (some "db".data) true true true false =
      (Except.ok none,
        [(LogLevel.warning, emptyValueMsg "db".data "e".data)]) ∧
    get_value cfgEx envNoPath "e".data (some "db".data) false false false true =
      (Except.ok none, []) := by
  constructor
  · rw [get_value_empty_value cfgEx envNoPath "e".data "db".data true true true
      false (by decide) (by decide) (by decide)]
    rfl
  · rw [get_value_empty_value cfgEx envNoPath "e".data "db".data false false
      false true (by decide) (by decide) (by decide)]
    rfl

/-- C5: once `get_value` reaches a non-empty raw value, exactly one
coercion applies, with digit coercion taking priority over boolean over
path, and the raw string is returned unchanged when no coercion is
requested. -/
theorem get_value_coercion_priority (cfg : Config) (env : Env)
    (option s : PyStr) (dig boo pat sil : Bool) (v : PyStr)
    (hs : has_section cfg s = true) (ho : has_option cfg s option = true)
    (hv : getRaw cfg s option = some v) (hne : v ≠ []) :
    (dig = true →
      get_value cfg env option (some s) dig boo pat sil =
        (Except.ok ((string_to_digit v).1.map PyValue.num),
          (string_to_digit v).2)) ∧
    (dig = false → boo = true →
      get_value cfg env option (some s) dig boo pat sil =
        (Except.ok ((is_true v).1.map PyValue.bool), (is_true v).2)) ∧
    (dig = false → boo = false → pat = true →
      ∀ p2, get_full_path env v = Except.ok p2 →
        get_value cfg env option (some s) dig boo pat sil =
          (Except.ok (some (PyValue.str p2)), [])) ∧
    (dig = false → boo = false → pat = true →
      get_full_path env v = Except.error () →
        get_value cfg env option (some s) dig boo pat sil =
          (Except.error (), [])) ∧
    (dig = false → boo = false → pat = false →
      get_value cfg env option (some s) dig boo pat sil =
        (Except.ok (some (PyValue.str v)), [])) := by
  refine ⟨?_, ?_, ?_, ?_, ?_⟩
  · intro hd
    subst hd
    simp [get_value, hs, ho, hv, hne]
  · intro hd hb
    subst hd; subst hb
    simp [get_value, hs, ho, hv, hne]
  · intro hd hb hp p2 hfull
    subst hd; subst hb; subst hp
    simp [get_value, hs, ho, hv, hne, hfull]
  · intro hd hb hp hfull
    subst hd; subst hb; subst hp
    simp [get_value, hs, ho, hv, hne, hfull]
  · intro hd hb hp
    subst hd; subst hb; subst hp
    simp [get_value, hs, ho, hv, hne]

/-- Witness for C5 on `cfgEx`'s `host=localhost`: all three coercion
selections and the no-coercion default (the path case hits the
`KeyError` of the unset PATH variable in `envNoPath`, the documented
raising branch). -/
theorem get_value_coercion_priority_witness :
    get_value cfgEx envNoPath "host".data (some "db".data) true true true false =
      (Except.ok ((string_to_digit "localhost".data).1.map PyValue.num),
        (string_to_digit "localhost".data).2) ∧
    get_value cfgEx envNoPath "host".data (some "db".data) false true true false =
      (Except.ok ((is_true "localhost".data).1.map PyValue.bool),
        (is_true "localhost".data).2) ∧
    get_value cfgEx envNoPath "host".data (some "db".data) false false true false =
      (Except.error (), []) ∧
    get_value cfgEx envNoPath "host".data (some "db".data) false false false false =
      (Except.ok (some (PyValue.str "localhost".data)), []) := by
  have h := get_value_coercion_priority cfgEx envNoPath "host".data "db".data
  refine ⟨(h true true true false "localhost".data (by decide) (by decide)
      (by decide) (by decide)).1 rfl,
    (h false true true false "localhost".data (by decide) (by decide)
      (by decide) (by decide)).2.1 rfl rfl,
    (h false false true false "localhost".data (by decide) (by decide)
      (by decide) (by decide)).2.2.2.1 rfl rfl rfl (by rfl),
    (h false false false false "localhost".data (by decide) (by decide)
      (by decide) (by decide)).2.2.2.2 rfl rfl rfl⟩

/-- C6: with `section` omitted, `get_value` resolves the section by a
first-match scan of the stored section order (`_get_section_of_option`);
when exactly one section contains the option the call behaves exactly as
if that section had been named, and when no section contains it the
result is the absence marker. -/
theorem get_value_section_discovery (cfg : Config) (env : Env)
    (option : PyStr) (dig boo pat sil : Bool) :
    (get_section_of_option cfg option = none ↔
      ∀ s ∈ sectionNames cfg, has_option cfg s option = false) ∧
    (∀ s, get_section_of_option cfg option = some s →
      has_option cfg s option = true ∧
      ∃ pre post, sectionNames cfg = pre ++ s :: post ∧
        ∀ t ∈ pre, has_option cfg t option = false) ∧
    (∀ s, (sectionNames cfg).filter (fun t => has_option cfg t option) = [s] →
      get_value cfg env option none dig boo pat sil =
        get_value cfg env option (some s) dig boo pat sil) ∧
    ((∀ s ∈ sectionNames cfg, has_option cfg s option = false) →
      (get_value cfg env option none dig boo pat sil).1 = Except.ok none) := by
  refine ⟨?_, ?_, ?_, ?_⟩
  · unfold get_section_of_option
    rw [List.find?_eq_none]
    constructor
    · intro h s hs
      have := h s hs
      simpa using this
    · intro h s hs
      simp [h s hs]
  · intro s h
    unfold get_section_of_option at h
    rw [List.find?_eq_some] at h
    obtain ⟨hp, pre, post, heq, hall⟩ := h
    refine ⟨hp, pre, post, heq, fun t ht => ?_⟩
    have := hall t ht
    simpa using this
  · intro s hfilter
    have hsec : get_section_of_option cfg option = some s := by
      unfold get_section_of_option
      rw [← List.filter_head?, hfilter]
      rfl
    rw [get_value_none_arg, hsec]
  · intro h
    have hres : get_section_of_option cfg option = none := by
      unfold get_section_of_option
      rw [List.find?_eq_none]
      intro s hs
      simp [h s hs]
    simp [get_value, hres]

/-- Witness for C6: in `cfgEx` the option `e` lives only in section
`db`, so omitting the section matches naming it; the absent option `zzz`
yields the absence marker. -/
theorem get_value_section_discovery_witness :
    get_value cfgEx envNoPath "e".data none false false false false =
      get_value cfgEx envNoPath "e".data (some "db".data) false false false false ∧
    (get_value cfgEx envNoPath "zzz".data none false false false false).1 =
      Except.ok none := by
  have h1 := get_value_section_discovery cfgEx envNoPath "e".data
    false false false false
  have h2 := get_value_section_discovery cfgEx envNoPath "zzz".data
    false false false false
  exact ⟨h1.2.2.1 "db".data (by decide), h2.2.2.2 (by decide)⟩

/-- C10: when `section` is omitted and no section contains the option,
the `None` sentinel of `_get_section_of_option` flows into the
missing-section check, so a non-silent `get_value` returns the absence
marker and logs a missing-SECTION error naming the sentinel text
`None` — not a missing-option error naming the option. -/
theorem get_value_unresolved_sentinel (cfg : Config) (env : Env)
    (option : PyStr) (dig boo pat : Bool)
    (h : ∀ s ∈ sectionNames cfg, has_option cfg s option = false) :
    get_value cfg env option none dig boo pat false =
      (Except.ok none, [(LogLevel.error, missingSectionMsg noneStr)]) := by
  have hres : get_section_of_option cfg option = none := by
    unfold get_section_of_option
    rw [List.find?_eq_none]
    intro s hs
    simp [h s hs]
  simp [get_value, hres]

/-- Witness for C10: the option `zzz` is in no section of `cfgEx`; the
logged message is the missing-section one citing the text `None`. -/
theorem get_value_unresolved_sentinel_witness :
    get_value cfgEx envNoPath "zzz".data none false false false false =
      (Except.ok none, [(LogLevel.error, missingSectionMsg noneStr)]) :=
  get_value_unresolved_sentinel cfgEx envNoPath "zzz".data false false false
    (by decide)

/-- C1 (code bug): `search_sections_of` is documented (`@rtype:
set[str]`) and claimed to return the set of ALL sections containing the
option, but its body executes `return result.add(section)` on the first
match — `set.add` returns `None`, so the method returns Python `None`
whenever at least one section contains the option.  In `cfgEx` the
option `host` lives in both `db` and `other`, yet the call returns
`None`; only the no-match case produces the (empty) set. -/
theorem search_sections_of_first_match_bug :
    search_sections_of cfgEx "host".data = none ∧
    search_sections_of cfgEx "zzz".data = some [] := by decide

/-- C2 (code bug): `_get_full_path` reads `os.environ["PATH"]`
unguarded, so with the variable unset a bare filename that is not an
existing file raises `KeyError` instead of being treated as "search path
empty"; the same input with an empty PATH present succeeds and returns
an absolute path. -/
theorem get_full_path_keyerror_on_unset_path :
    get_full_path envNoPath "prog".data = Except.error () ∧
    get_full_path envEmptyPath "prog".data = Except.ok "/cwd/prog".data := by
  constructor
  · rfl
  · rfl

theorem length_takeWhile_lt {α : Type} (p : α → Bool) (l : List α)
    (h : ∃ x ∈ l, p x = false) : (l.takeWhile p).length < l.length := by
  induction l with
  | nil => simp at h
  | cons a t ih =>
    by_cases hpa : p a = true
    · obtain ⟨x, hx, hpx⟩ := h
      rcases List.mem_cons.mp hx with hxa | hxt
      · rw [hxa] at hpx
        rw [hpa] at hpx
        exact absurd hpx (by simp)
      · have := ih ⟨x, hxt, hpx⟩
        simp only [List.takeWhile_cons, hpa, if_true, List.length_cons]
        omega
    · simp only [List.takeWhile_cons]
      rw [if_neg hpa]
      simp

theorem pyRstrip_ne_nil (head : PyStr)
    (hx : head.any (fun c => c != '/') = true) :
    pyRstrip (fun c => c == '/') head ≠ [] := by
  unfold pyRstrip
  rw [Ne, ← List.length_eq_zero, List.length_reverse, List.length_eq_zero,
    List.dropWhile_eq_nil_iff]
  push_neg
  obtain ⟨x, hxm, hxne⟩ := List.any_eq_true.mp hx
  exact ⟨x, List.mem_reverse.mpr hxm, by simpa using hxne⟩

theorem ifRstrip_ne_nil (head : PyStr) (hne : head ≠ []) :
    (if head ≠ [] ∧ head.any (fun c => c != '/') then
      pyRstrip (fun c => c == '/') head else head) ≠ [] := by
  split
  · rename_i hcase
    exact pyRstrip_ne_nil head (by exact hcase.2)
  · exact hne

theorem pySplit_head_ne_nil (v : PyStr) (h : v.take 1 = ['/']) :
    (pySplit v).1 ≠ [] := by
  obtain ⟨t, rfl⟩ : ∃ t, v = '/' :: t := by
    cases v with
    | nil => simp at h
    | cons a t =>
      have h2 : ([a] : List Char) = ['/'] := h
      have h1 : a = '/' := ((List.cons.injEq _ _ _ _).mp h2).1
      exact ⟨t, by rw [h1]⟩
  have htail : ((('/' :: t).reverse.takeWhile (fun c => c != '/')).reverse).length
      < ('/' :: t).length := by
    rw [List.length_reverse, ← List.length_reverse ('/' :: t)]
    apply length_takeWhile_lt
    refine ⟨'/', ?_, by simp⟩
    rw [List.mem_reverse]
    exact List.mem_cons_self '/' t
  have hhead : ('/' :: t).take
      (('/' :: t).length -
        ((('/' :: t).reverse.takeWhile (fun c => c != '/')).reverse).length) ≠ [] := by
    rw [Ne, List.take_eq_nil_iff]
    push_neg
    exact ⟨by omega, by simp⟩
  exact ifRstrip_ne_nil _ hhead

/-- C9: absolute-path coercion is idempotent — on an input that is
already absolute, already `normpath`-normalised and carries no leading
user-home shorthand, `_get_full_path` returns the input unchanged, and
hence applying it twice equals applying it once. -/
theorem get_full_path_idempotent (env : Env) (v : PyStr)
    (habs : v.take 1 = ['/']) (hnorm : normpath v = v)
    (htilde : v.take 1 ≠ ['~']) :
    get_full_path env v = Except.ok v ∧
    Except.bind (get_full_path env v) (fun w => get_full_path env w) =
      get_full_path env v := by
  have hsplit := pySplit_head_ne_nil v habs
  have he : expanduser env v = v := by
    unfold expanduser
    rw [if_pos htilde]
  have ha : abspath env v = v := by
    unfold abspath
    rw [if_pos (by simp [isabs, habs]), hnorm]
  have hcond : ¬((pySplit v).1 = [] ∧ ¬ env.isfile v = true) :=
    fun hh => hsplit hh.1
  have h1 : get_full_path env v = Except.ok v := by
    simp only [get_full_path, if_neg hcond]
    rw [he, hnorm, ha]
  exact ⟨h1, by rw [h1]; exact h1⟩

/-- Witness for C9 at the absolute normalised path `/a/b`. -/
theorem get_full_path_idempotent_witness :
    ("/a/b".data.take 1 = ['/']) ∧ normpath "/a/b".data = "/a/b".data ∧
    ("/a/b".data.take 1 ≠ ['~']) ∧
    get_full_path envNoPath "/a/b".data = Except.ok "/a/b".data :=
  ⟨by decide, by decide, by decide,
    (get_full_path_idempotent envNoPath "/a/b".data (by decide) (by decide)
      (by decide)).1⟩

end CPW

